import Mathlib

set_option maxRecDepth 8000

/-!
Shallow embedding of the ray-tracer-challenge repository (src/math.rs,
src/canvas.rs, src/sim.rs).  The f32 values of the source are idealized as
rationals `ℚ`; every concrete input used in a theorem below is chosen so
that the f32 computation of the source and the exact rational computation
agree (the products fed to the narrowing casts are exactly representable,
or truncate to the same integer).  Machine integers (`usize`, `u8`) are
modelled as `ℕ` with explicit saturation where the source's cast saturates.
-/

namespace RayTracer

/-- Model of `Vector` from src/math.rs: a triple of f32 components
(idealized as ℚ).  The source is a tuple struct `Vector(f32, f32, f32)`;
fields `x`, `y`, `z` stand for `.0`, `.1`, `.2`. -/
structure Vector where
  x : ℚ
  y : ℚ
  z : ℚ
deriving DecidableEq

/-- Model of `Point` from src/math.rs (tuple struct `Point(f32, f32, f32)`). -/
structure Point where
  x : ℚ
  y : ℚ
  z : ℚ
deriving DecidableEq

/-- Model of `impl Add<&Vector> for &Vector` (src/math.rs, componentwise). -/
def Vector.add (a b : Vector) : Vector :=
  ⟨a.x + b.x, a.y + b.y, a.z + b.z⟩

/-- Model of `impl Neg for Vector` (src/math.rs): componentwise negation. -/
def Vector.neg (v : Vector) : Vector :=
  ⟨-v.x, -v.y, -v.z⟩

/-- Model of `Vector::cross` (src/math.rs lines 90-95). -/
def Vector.cross (a b : Vector) : Vector :=
  ⟨a.y * b.z - a.z * b.y, a.z * b.x - a.x * b.z, a.x * b.y - a.y * b.x⟩

/-- Model of `impl AddAssign<&Vector> for Point` / `impl Add<&Vector> for &Point`
(src/math.rs): componentwise addition of a displacement to a position. -/
def Point.addVector (p : Point) (v : Vector) : Point :=
  ⟨p.x + v.x, p.y + v.y, p.z + v.z⟩

/-!
Bit-level model of f32 comparison, for the `PartialEq` impls of `Point` and
`Vector` (src/math.rs lines 17-23 and 98-104).  An f32 value is represented
by its bit pattern `b < 2^32`: sign bit `2^31`, magnitude `b % 2^31`; the
value is a NaN exactly when the magnitude exceeds the exponent mask
`0x7F800000 = 2139095040`.
-/

/-- Magnitude bits of an f32 bit pattern (everything below the sign bit). -/
def f32Mag (b : ℕ) : ℕ := b % 2 ^ 31

/-- Sign bit of an f32 bit pattern (true when the sign bit is set,
i.e. `is_sign_positive()` is false). -/
def f32SignBit (b : ℕ) : Bool := 2 ^ 31 ≤ b

/-- NaN test on an f32 bit pattern: exponent all ones and nonzero mantissa,
i.e. magnitude strictly above `0x7F800000`. -/
def f32IsNan (b : ℕ) : Bool := 2139095040 < f32Mag b

/-- Model of the primitive Rust `f32 == f32` (IEEE 754 equality): false if
either operand is NaN, otherwise true iff the bit patterns coincide or both
operands are zeros (`+0.0 == -0.0`). -/
def f32PrimEq (a b : ℕ) : Bool :=
  !f32IsNan a && !f32IsNan b && (a == b || (f32Mag a == 0 && f32Mag b == 0))

/-- Model of the `float_eq` crate's ULPs comparison with threshold 0
(`float_eq!(a, b, ulps <= 0)`), as used by the `PartialEq` impls in
src/math.rs.  Modelled from the crate's documented algorithm: NaNs are never
equal; operands of different sign fall back to `==` (to account for
`0.0 == -0.0`); otherwise the difference of the bit patterns must be at most
the threshold, which at threshold 0 means equal bit patterns. -/
def ulpsEqZero (a b : ℕ) : Bool :=
  if f32IsNan a || f32IsNan b then false
  else if f32SignBit a != f32SignBit b then f32PrimEq a b
  else a == b

/-- Model of `impl PartialEq for Point` (src/math.rs lines 17-23): the three
components compared with `float_eq!(_, _, ulps <= 0)`, at the bit level. -/
def pointBitsEq (px py pz qx qy qz : ℕ) : Bool :=
  ulpsEqZero px qx && ulpsEqZero py qy && ulpsEqZero pz qz

/-- Model of `impl PartialEq for Vector` (src/math.rs lines 98-104),
identical in form to the `Point` instance. -/
def vectorBitsEq (px py pz qx qy qz : ℕ) : Bool :=
  ulpsEqZero px qx && ulpsEqZero py qy && ulpsEqZero pz qz

/-!
Canvas and color model (src/canvas.rs).
-/

/-- Model of `Color` from src/canvas.rs (tuple struct `Color(f32, f32, f32)`);
fields `red`, `green`, `blue` stand for `.0`, `.1`, `.2`. -/
structure Color where
  red : ℚ
  green : ℚ
  blue : ℚ
deriving DecidableEq

/-- Embedding of the constant `RGB: f32 = 255.` (src/canvas.rs line 8). -/
def RGB : ℚ := 255

/-- Semantics of the Rust numeric cast `expr as u8` applied to an f32 value,
on the ℚ idealization: the cast saturates, sending anything at or below 0 to
0 and anything at or above 255 to 255, and truncates toward zero in between
(for a positive rational, truncation is `num / den` in ℕ).  The source NaN
input (which Rust also sends to 0) has no counterpart in ℚ. -/
def f32AsU8 (x : ℚ) : ℕ :=
  if x ≤ 0 then 0 else if 255 ≤ x then 255 else x.num.toNat / x.den

/-- Model of `Color::get_rgb` (src/canvas.rs lines 34-40): each channel is
scaled by `RGB = 255` and narrowed with `as u8`. -/
def Color.getRgb (c : Color) : ℕ × ℕ × ℕ :=
  (f32AsU8 (c.red * RGB), f32AsU8 (c.green * RGB), f32AsU8 (c.blue * RGB))

/-- Model of `impl Display for Color` (src/canvas.rs lines 103-111):
`write!(f, "{} {} {}", red, green, blue)` on the `get_rgb` channels. -/
def Color.toString (c : Color) : String :=
  Nat.repr c.getRgb.1 ++ " " ++ Nat.repr c.getRgb.2.1 ++ " " ++ Nat.repr c.getRgb.2.2

/-- Model of `Canvas` (src/canvas.rs lines 170-174): a width, a height and a
row-major buffer of colors. -/
structure Canvas where
  width : ℕ
  height : ℕ
  buffer : List Color
deriving DecidableEq

/-- Model of `Canvas::new` (src/canvas.rs lines 177-190): a buffer of
`width * height` copies of the fill color, defaulting to black. -/
def Canvas.new (width height : ℕ) (color : Option Color) : Canvas :=
  match color with
  | some c => ⟨width, height, List.replicate (width * height) c⟩
  | none => ⟨width, height, List.replicate (width * height) ⟨0, 0, 0⟩⟩

/-- Model of `Canvas::get_index` (src/canvas.rs lines 204-206): the row-major
index `x + width * y`. -/
def Canvas.getIndex (cv : Canvas) (x y : ℕ) : ℕ := x + cv.width * y

/-- Model of `Canvas::write_pixel` (src/canvas.rs lines 208-214): the write
goes through `Vec::get_mut`, so an index at or past the end of the buffer is
silently ignored; `List.set` has exactly this out-of-range behavior. -/
def Canvas.writePixel (cv : Canvas) (x y : ℕ) (color : Color) : Canvas :=
  { cv with buffer := cv.buffer.set (cv.getIndex x y) color }

/-- Model of `Canvas::pixel_at` (src/canvas.rs lines 216-219): the read is a
direct `Vec` indexing `&self.buffer[idx]`, which panics when the index is at
or past the end of the buffer; the panic is modelled as `none`. -/
def Canvas.pixelAt (cv : Canvas) (x y : ℕ) : Option Color :=
  cv.buffer[cv.getIndex x y]?

/-- Model of `Ppm` (src/canvas.rs line 112): a newtype around the text buffer. -/
structure Ppm where
  text : String

/-- Model of `Ppm::header` (src/canvas.rs lines 125-128):
`format!("P3\n{} {}\n{}\n", width, height, RGB)`, where the f32 constant
`RGB = 255.` displays as `255`. -/
def Ppm.header (cv : Canvas) : String :=
  "P3\n" ++ Nat.repr cv.width ++ " " ++ Nat.repr cv.height ++ "\n255\n"

/-- One iteration of the loop body of `Ppm::serialize_colors`
(src/canvas.rs lines 130-149), threading the output buffer and the running
character counter.  `rgb.len()` is a byte length in the source; every
character emitted is ASCII, so `String.length` coincides with it. -/
def Ppm.serializeStep (width : ℕ) (acc : String × ℕ) (c : Color) : String × ℕ :=
  let rgb := Color.toString c
  let rgbLen := rgb.length
  let acc1 := if width * rgbLen < acc.2 ∨ 69 ≤ acc.2 + rgbLen + 1 then (acc.1 ++ "\n", 0) else acc
  let acc2 := if acc1.2 ≠ 0 then (acc1.1 ++ " ", acc1.2) else acc1
  (acc2.1 ++ rgb, acc2.2 + rgbLen + 1)

/-- Model of `Ppm::serialize_colors` (src/canvas.rs lines 130-149): the
`for c in cv` loop walks the canvas iterator, which yields the buffer in
row-major order; it is modelled as a fold over the buffer list starting with
counter 0. -/
def Ppm.serializeColors (buffer : String) (cv : Canvas) : String :=
  (cv.buffer.foldl (Ppm.serializeStep cv.width) (buffer, 0)).1

/-- Model of Rust's `str::ends_with(char)` on the ASCII buffers of this
program: true iff the string is nonempty and its last character matches. -/
def strEndsWithChar (s : String) (c : Char) : Bool :=
  s.data.getLast? == some c

/-- Model of `Ppm::ends_with_new_line` (src/canvas.rs lines 151-155): a
newline is pushed only when the buffer does not already end with one. -/
def Ppm.endsWithNewLine (buffer : String) : String :=
  if strEndsWithChar buffer '\n' then buffer else buffer ++ "\n"

/-- Model of `Ppm::stringify` (src/canvas.rs lines 115-123): header, then the
serialized colors, then the final-newline fixup. -/
def Ppm.stringify (cv : Canvas) : Ppm :=
  ⟨Ppm.endsWithNewLine (Ppm.serializeColors (Ppm.header cv) cv)⟩

/-- Model of `Canvas::to_ppm` (src/canvas.rs lines 221-223). -/
def Canvas.toPpm (cv : Canvas) : Ppm :=
  Ppm.stringify cv

/-!
Simulator (src/sim.rs).
-/

/-- Model of `Environment` (src/sim.rs lines 6-9). -/
structure Environment where
  gravity : Vector
  wind : Vector
deriving DecidableEq

/-- Model of `Projectile` (src/sim.rs lines 11-14). -/
structure Projectile where
  pos : Point
  v : Vector
deriving DecidableEq

/-- Model of `Simulator` (src/sim.rs lines 16-19). -/
structure Simulator where
  env : Environment
  proj : Projectile
deriving DecidableEq

/-- Model of `Simulator::new` (src/sim.rs lines 22-24). -/
def Simulator.new (env : Environment) (proj : Projectile) : Simulator :=
  ⟨env, proj⟩

/-- Model of `Simulator::tick` (src/sim.rs lines 25-30): first
`self.proj.pos += &self.proj.v` (using the not-yet-updated velocity), then
`self.proj.v += &self.env.gravity + &self.env.wind` (the two environment
vectors are summed first, then accumulated into the velocity), and the
updated projectile is returned; the returned reference is modelled by pairing
the new state with the projectile it exposes. -/
def Simulator.tick (s : Simulator) : Simulator × Projectile :=
  let pos := s.proj.pos.addVector s.proj.v
  let v := s.proj.v.add (s.env.gravity.add s.env.wind)
  let proj : Projectile := ⟨pos, v⟩
  (⟨s.env, proj⟩, proj)

/-- Largest value of `usize` on the 64-bit targets the crate builds for. -/
def usizeMax : ℕ := 2 ^ 64 - 1

/-- Semantics of the Rust numeric cast `expr as usize` applied to an f32
value, on the ℚ idealization: saturating truncation toward zero (negative
values and NaN go to 0, values at or above `usize::MAX` go to `usize::MAX`). -/
def f32AsUsize (x : ℚ) : ℕ :=
  if x ≤ 0 then 0 else if (usizeMax : ℚ) ≤ x then usizeMax else x.num.toNat / x.den

/-- Semantics of `usize` subtraction `a - b` as the source uses it in
`Simulator::draw`: the subtraction is unguarded, and an underflow (b > a) is
an arithmetic-overflow error, modelled as `none`. -/
def usizeSub (a b : ℕ) : Option ℕ :=
  if b ≤ a then some (a - b) else none

/-- Model of the canvas y-coordinate computation inside `Simulator::draw`
(src/sim.rs lines 42-46): `height - new_proj.pos.1 as usize`, built from the
unguarded `usize` subtraction. -/
def Simulator.drawYCoord (height : ℕ) (posY : ℚ) : Option ℕ :=
  usizeSub height (f32AsUsize posY)

/-!
Helper lemmas shared by several claim proofs.
-/

/-- Decimal representations of the 8-bit channel values are nonempty and do
not end in a newline character. -/
theorem natRepr_lastChar : ∀ n : ℕ, n < 256 →
    (Nat.repr n).data ≠ [] ∧ (Nat.repr n).data.getLast? ≠ some '\n' := by
  decide

/-- The saturating `as u8` cast never exceeds 255. -/
theorem f32AsU8_le (x : ℚ) : f32AsU8 x ≤ 255 := by
  unfold f32AsU8
  split
  · omega
  · split
    · exact le_refl 255
    · rename_i h0 h255
      have hx : 0 < x := lt_of_not_le h0
      have hlt : x < 255 := lt_of_not_le h255
      have hd : 0 < x.den := x.den_pos
      have hdq : (0 : ℚ) < (x.den : ℚ) := by exact_mod_cast hd
      have hq : (x.num : ℚ) < 255 * (x.den : ℚ) := by
        rw [← Rat.num_div_den x, div_lt_iff₀ hdq] at hlt
        exact hlt
      have hZ : x.num < 255 * (x.den : ℤ) := by exact_mod_cast hq
      have hN : x.num.toNat < 255 * x.den := by omega
      exact le_of_lt ((Nat.div_lt_iff_lt_mul hd).mpr hN)

/-- On the open interval (0, 255) the saturating `as u8` cast is the floor
(equivalently, truncation toward zero, the two agreeing on positives). -/
theorem f32AsU8_floor (x : ℚ) (h0 : 0 < x) (h255 : x < 255) :
    (f32AsU8 x : ℤ) = ⌊x⌋ := by
  unfold f32AsU8
  rw [if_neg (not_le.mpr h0), if_neg (not_le.mpr h255)]
  have hd : 0 < x.den := x.den_pos
  have hdq : (0 : ℚ) < (x.den : ℚ) := by exact_mod_cast hd
  have hnum0 : (0 : ℤ) ≤ x.num := le_of_lt (Rat.num_pos.mpr h0)
  have hxn : x.num = (x.num.toNat : ℤ) := (Int.toNat_of_nonneg hnum0).symm
  have h1 : x.num.toNat / x.den * x.den ≤ x.num.toNat := Nat.div_mul_le_self _ _
  have h2 : x.num.toNat < x.den * (x.num.toNat / x.den + 1) := by
    have h3 := Nat.div_add_mod x.num.toNat x.den
    have h4 : x.num.toNat % x.den < x.den := Nat.mod_lt _ hd
    calc x.num.toNat = x.den * (x.num.toNat / x.den) + x.num.toNat % x.den := h3.symm
    _ < x.den * (x.num.toNat / x.den) + x.den := by omega
    _ = x.den * (x.num.toNat / x.den + 1) := by rw [Nat.mul_succ]
  set k := x.num.toNat / x.den with hk
  rw [eq_comm, Int.floor_eq_iff]
  constructor
  · rw [← Rat.num_div_den x, le_div_iff₀ hdq, hxn]
    exact_mod_cast h1
  · rw [← Rat.num_div_den x, div_lt_iff₀ hdq, hxn, mul_comm]
    exact_mod_cast h2

/-!
Claim theorems.
-/

/-- C4: a 10×2 canvas uniformly filled with (1, 0.8, 0.6) serializes, after
the header, to four output lines of five `255 204 153` triplets each, the
70-character soft limit wrapping each 10-pixel row in the middle without
splitting a triplet.  (0.8 and 0.6 are idealized as 4/5 and 3/5; the f32
products 0.8·255 and 0.6·255 truncate to the same integers 204 and 153.) -/
theorem ppm_10x2_wrapped_lines :
    (Canvas.new 10 2 (some ⟨1, mkRat 4 5, mkRat 3 5⟩)).toPpm.text =
      "P3\n10 2\n255\n255 204 153 255 204 153 255 204 153 255 204 153 255 204 153\n255 204 153 255 204 153 255 204 153 255 204 153 255 204 153\n255 204 153 255 204 153 255 204 153 255 204 153 255 204 153\n255 204 153 255 204 153 255 204 153 255 204 153 255 204 153\n" := by
  with_unfolding_all rfl

/-- C5: one `tick` moves the position by the pre-call velocity, then adds
gravity and wind (both unconditionally) to the velocity, leaves the
environment unchanged, and returns the updated projectile. -/
theorem tick_position_then_velocity (s : Simulator) :
    s.tick.1.proj.pos = s.proj.pos.addVector s.proj.v ∧
    s.tick.1.proj.v = (s.proj.v.add s.env.gravity).add s.env.wind ∧
    s.tick.1.env = s.env ∧
    s.tick.2 = s.tick.1.proj := by
  refine ⟨rfl, ?_, rfl, rfl⟩
  show Vector.add s.proj.v (Vector.add s.env.gravity s.env.wind) = _
  simp only [Vector.add, Vector.mk.injEq]
  refine ⟨by ring, by ring, by ring⟩

/-- C8: the cross product is antisymmetric, `cross a b = -(cross b a)`,
componentwise (each component flips exactly, which also holds at f32
precision since `x*y - z*w` negates exactly). -/
theorem cross_antisymm (a b : Vector) :
    a.cross b = (b.cross a).neg := by
  simp only [Vector.cross, Vector.neg, Vector.mk.injEq]
  refine ⟨by ring, by ring, by ring⟩

/-- C10: the y-coordinate computation of `Simulator::draw` is an unguarded
`usize` subtraction: it is well-defined exactly when the truncated vertical
position does not exceed the canvas height, and a state reachable by one
`tick` from a `Simulator::new` state (vertical position 11 against a canvas
of height 5) makes it underflow. -/
theorem drawYCoord_underflow :
    (∀ (height : ℕ) (posY : ℚ),
        (Simulator.drawYCoord height posY).isSome ↔ f32AsUsize posY ≤ height) ∧
    (Simulator.new ⟨⟨0, -(mkRat 1 10), 0⟩, ⟨-(mkRat 1 100), 0, 0⟩⟩
        ⟨⟨0, 1, 0⟩, ⟨1, 10, 0⟩⟩).tick.2.pos.y = 11 ∧
    Simulator.drawYCoord 5 11 = none := by
  refine ⟨?_, ?_⟩
  · intro height posY
    unfold Simulator.drawYCoord usizeSub
    split
    · rename_i hc
      simp [hc]
    · rename_i hc
      simp [hc]
  · with_unfolding_all decide

/-- C1 counterexample: the claim that any (x, y) with `x ≥ width` is a
silent no-op is false.  On a 5×3 canvas the out-of-range write at (5, 0) has
row-major index 5, still inside the buffer, so it overwrites the pixel at
(0, 1) instead of leaving the canvas unchanged. -/
theorem writePixel_out_of_range_aliases :
    (Canvas.new 5 3 none).width ≤ 5 ∧
    (Canvas.new 5 3 none).writePixel 5 0 ⟨1, 0, 0⟩ ≠ Canvas.new 5 3 none ∧
    ((Canvas.new 5 3 none).writePixel 5 0 ⟨1, 0, 0⟩).buffer[5]? = some ⟨1, 0, 0⟩ := by
  decide

/-- C1 (amended): `write_pixel` never errors; it is a silent no-op exactly
when the row-major index `x + width·y` is at or past the end of the buffer,
and otherwise it overwrites the buffer entry at that index — which for
`x ≥ width` with `y` small enough aliases a different pixel rather than
being ignored. -/
theorem writePixel_noop_iff_index_ge_len (cv : Canvas) (x y : ℕ) (c : Color)
    (hlen : cv.buffer.length = cv.width * cv.height) :
    (cv.width * cv.height ≤ x + cv.width * y → cv.writePixel x y c = cv) ∧
    (x + cv.width * y < cv.width * cv.height →
      (cv.writePixel x y c).buffer = cv.buffer.set (x + cv.width * y) c ∧
      ((cv.writePixel x y c).buffer)[x + cv.width * y]? = some c) := by
  constructor
  · intro h
    have hge : cv.buffer.length ≤ x + cv.width * y := by omega
    unfold Canvas.writePixel Canvas.getIndex
    rw [List.set_eq_of_length_le hge]
  · intro h
    have hlt : x + cv.width * y < cv.buffer.length := by omega
    exact ⟨rfl, List.getElem?_set_self hlt⟩

/-- Witness for the amended C1 theorem: on a 5×3 canvas, the write at (7, 2)
(index 17 ≥ 15) is a no-op, while the write at (1, 1) (index 6) lands in the
buffer at index 6. -/
theorem writePixel_noop_iff_index_ge_len_witness :
    (Canvas.new 5 3 none).writePixel 7 2 ⟨1, 0, 0⟩ = Canvas.new 5 3 none ∧
    ((Canvas.new 5 3 none).writePixel 1 1 ⟨1, 0, 0⟩).buffer[6]? = some ⟨1, 0, 0⟩ := by
  constructor
  · exact (writePixel_noop_iff_index_ge_len (Canvas.new 5 3 none) 7 2 ⟨1, 0, 0⟩
      (by decide)).1 (by decide)
  · exact ((writePixel_noop_iff_index_ge_len (Canvas.new 5 3 none) 1 1 ⟨1, 0, 0⟩
      (by decide)).2 (by decide)).2

/-- C2 counterexample: the claim that `pixel_at` fails exactly when
`x ≥ width ∨ y ≥ height` is false.  On a 5×3 canvas with a distinctive color
stored at (0, 1), the out-of-range read at (5, 0) does not fail: it silently
returns the pixel stored at (0, 1) (row-major index 5). -/
theorem pixelAt_out_of_range_succeeds :
    (Canvas.new 5 3 none).width ≤ 5 ∧
    ((Canvas.new 5 3 none).writePixel 0 1 ⟨0, 1, 0⟩).pixelAt 5 0 = some ⟨0, 1, 0⟩ := by
  decide

/-- C2 (amended): `pixel_at` fails (an index panic, modelled as `none`)
exactly when the row-major index `x + width·y` is at or past the end of the
buffer — not when `x ≥ width ∨ y ≥ height` — and for properly in-range
coordinates it returns the stored color. -/
theorem pixelAt_none_iff_index_ge_len (cv : Canvas) (x y : ℕ)
    (hlen : cv.buffer.length = cv.width * cv.height) :
    (cv.pixelAt x y = none ↔ cv.width * cv.height ≤ x + cv.width * y) ∧
    (∀ c : Color, x < cv.width → y < cv.height →
      (cv.writePixel x y c).pixelAt x y = some c) := by
  constructor
  · unfold Canvas.pixelAt Canvas.getIndex
    rw [List.getElem?_eq_none_iff, hlen]
  · intro c hx hy
    have h2 : cv.width * (y + 1) ≤ cv.width * cv.height :=
      Nat.mul_le_mul_left _ (by omega)
    rw [Nat.mul_succ] at h2
    have hlt : x + cv.width * y < cv.buffer.length := by omega
    unfold Canvas.pixelAt Canvas.writePixel Canvas.getIndex
    exact List.getElem?_set_self hlt

/-- Witness for the amended C2 theorem: on a 5×3 canvas, reading (2, 4)
(index 22 ≥ 15) fails, and writing then reading (2, 1) returns the color. -/
theorem pixelAt_none_iff_index_ge_len_witness :
    (Canvas.new 5 3 none).pixelAt 2 4 = none ∧
    ((Canvas.new 5 3 none).writePixel 2 1 ⟨1, 0, 0⟩).pixelAt 2 1 = some ⟨1, 0, 0⟩ := by
  constructor
  · exact ((pixelAt_none_iff_index_ge_len (Canvas.new 5 3 none) 2 4 (by decide)).1).mpr
      (by decide)
  · exact (pixelAt_none_iff_index_ge_len (Canvas.new 5 3 none) 2 1 (by decide)).2
      ⟨1, 0, 0⟩ (by decide) (by decide)

/-- C3: evaluation of the serializer at the 5×3 scenario of the claim (and
of the repository's own test `check_stringified_color_correctness`).  The
code does NOT produce the three expected 15-number lines: the wrap condition
`counter > width * rgb_len` fires after only four color tokens of a row
whenever an earlier token was longer than the current one, so the actual
output wraps mid-row into four data lines.  The second conjunct records that
the expected output of the claim (and of the test) differs. -/
theorem ppm_5x3_actual_output :
    ((((Canvas.new 5 3 none).writePixel 0 0 ⟨mkRat 3 2, 0, 0⟩).writePixel 2 1
        ⟨0, mkRat 1 2, 0⟩).writePixel 4 2 ⟨-(mkRat 1 2), 0, 1⟩).toPpm.text =
      "P3\n5 3\n255\n255 0 0 0 0 0 0 0 0 0 0 0\n0 0 0 0 0 0 0 0 0 0 127 0\n0 0 0 0 0 0 0 0 0 0 0 0 0 0 0\n0 0 0 0 0 255\n" ∧
    ((((Canvas.new 5 3 none).writePixel 0 0 ⟨mkRat 3 2, 0, 0⟩).writePixel 2 1
        ⟨0, mkRat 1 2, 0⟩).writePixel 4 2 ⟨-(mkRat 1 2), 0, 1⟩).toPpm.text ≠
      "P3\n5 3\n255\n255 0 0 0 0 0 0 0 0 0 0 0 0 0 0\n0 0 0 0 0 0 0 127 0 0 0 0 0 0 0\n0 0 0 0 0 0 0 0 0 0 0 0 0 0 255\n" := by
  with_unfolding_all decide

/-- C7: the 8-bit conversion used by serialization applies the saturating
f32-to-u8 cast to each channel scaled by 255: it is total, bounded by 255,
sends any product at or below 0 to 0 and any product at or above 255 to 255,
and truncates products strictly in between toward zero (floor, the two
agreeing on positives).  The NaN-to-0 case of the Rust cast has no
counterpart in the ℚ idealization and is absorbed into the `≤ 0` branch. -/
theorem f32AsU8_saturates :
    (∀ c : Color, c.getRgb =
      (f32AsU8 (c.red * RGB), f32AsU8 (c.green * RGB), f32AsU8 (c.blue * RGB))) ∧
    ∀ x : ℚ, f32AsU8 x ≤ 255 ∧ (x ≤ 0 → f32AsU8 x = 0) ∧
      (255 ≤ x → f32AsU8 x = 255) ∧ (0 < x → x < 255 → (f32AsU8 x : ℤ) = ⌊x⌋) := by
  refine ⟨fun c => rfl, fun x => ⟨f32AsU8_le x, ?_, ?_, f32AsU8_floor x⟩⟩
  · intro h
    unfold f32AsU8
    rw [if_pos h]
  · intro h
    have h0 : ¬ x ≤ 0 := by
      intro hc
      linarith
    unfold f32AsU8
    rw [if_neg h0, if_pos h]

/-- Witness for C7: the cast evaluates to 0 at -255, to 255 at 383, and to
the floor 2 at 5/2. -/
theorem f32AsU8_saturates_witness :
    f32AsU8 (-255) = 0 ∧ f32AsU8 383 = 255 ∧ f32AsU8 (mkRat 5 2) = 2 ∧
      ⌊(mkRat 5 2 : ℚ)⌋ = 2 := by
  have hf : f32AsU8 (mkRat 5 2) = 2 := by with_unfolding_all decide
  have h3 := (f32AsU8_saturates.2 (mkRat 5 2)).2.2.2 (by decide) (by decide)
  refine ⟨(f32AsU8_saturates.2 (-255)).2.1 (by decide),
    (f32AsU8_saturates.2 383).2.2.1 (by decide), hf, ?_⟩
  rw [← h3, hf]
  rfl

/-- The stringified form of a color is nonempty and never ends in a newline
(its last character is a digit of the blue channel's decimal form). -/
theorem colorToString_last (c : Color) :
    (Color.toString c).data ≠ [] ∧ (Color.toString c).data.getLast? ≠ some '\n' := by
  have hle : f32AsU8 (c.blue * RGB) ≤ 255 := f32AsU8_le _
  have h := natRepr_lastChar (f32AsU8 (c.blue * RGB)) (by omega)
  have hblue : c.getRgb.2.2 = f32AsU8 (c.blue * RGB) := rfl
  unfold Color.toString
  rw [String.data_append]
  constructor
  · intro hcontra
    rw [hblue] at hcontra
    exact h.1 (List.append_eq_nil.mp hcontra).2
  · rw [List.getLast?_append_of_ne_nil _ (by rw [hblue]; exact h.1), hblue]
    exact h.2

/-- Each iteration of the serializer loop ends the buffer with the
stringified color it just emitted. -/
theorem serializeStep_ends (w : ℕ) (acc : String × ℕ) (c : Color) :
    ∃ s : String, (Ppm.serializeStep w acc c).1 = s ++ Color.toString c :=
  ⟨_, rfl⟩

/-- C6: for every canvas (zero-sized ones included) the serialized buffer
ends with exactly one newline character: there is a decomposition
`t ++ ['\n']` with `t` not itself ending in a newline, so a newline is
present and never doubled. -/
theorem toPpm_single_trailing_newline (cv : Canvas) :
    ∃ t : List Char, cv.toPpm.text.data = t ++ ['\n'] ∧ t.getLast? ≠ some '\n' := by
  have hdrdata : (Ppm.header cv).data =
      (("P3\n" ++ Nat.repr cv.width ++ " " ++ Nat.repr cv.height).data ++
        ['\n', '2', '5', '5']) ++ ['\n'] := by
    unfold Ppm.header
    rw [String.data_append, List.append_assoc]
    rfl
  rcases List.eq_nil_or_concat cv.buffer with hb | ⟨L, c, hb⟩
  · have hser : Ppm.serializeColors (Ppm.header cv) cv = Ppm.header cv := by
      unfold Ppm.serializeColors
      rw [hb]
      rfl
    have hends : strEndsWithChar (Ppm.header cv) '\n' = true := by
      unfold strEndsWithChar
      rw [hdrdata, List.getLast?_concat]
      rfl
    refine ⟨("P3\n" ++ Nat.repr cv.width ++ " " ++ Nat.repr cv.height).data ++
      ['\n', '2', '5', '5'], ?_, ?_⟩
    · show (Ppm.endsWithNewLine (Ppm.serializeColors (Ppm.header cv) cv)).data = _
      rw [hser]
      simp only [Ppm.endsWithNewLine, hends, if_true]
      exact hdrdata
    · rw [List.getLast?_append_of_ne_nil _ (by decide : (['\n', '2', '5', '5'] : List Char) ≠ [])]
      decide
  · rw [List.concat_eq_append] at hb
    obtain ⟨s, hs⟩ := serializeStep_ends cv.width
      (L.foldl (Ppm.serializeStep cv.width) (Ppm.header cv, 0)) c
    have hser : Ppm.serializeColors (Ppm.header cv) cv =
        (Ppm.serializeStep cv.width
          (L.foldl (Ppm.serializeStep cv.width) (Ppm.header cv, 0)) c).1 := by
      unfold Ppm.serializeColors
      rw [hb, List.foldl_append]
      rfl
    obtain ⟨hne, hlast⟩ := colorToString_last c
    obtain ⟨d, hd⟩ : ∃ d, (Color.toString c).data.getLast? = some d := by
      cases hgl : (Color.toString c).data.getLast? with
      | none => exact absurd (List.getLast?_eq_none_iff.mp hgl) hne
      | some d => exact ⟨d, rfl⟩
    have hdne : d ≠ '\n' := by
      intro hcontra
      rw [hcontra] at hd
      exact hlast hd
    have hSdata_last : (Ppm.serializeColors (Ppm.header cv) cv).data.getLast? = some d := by
      rw [hser, hs, String.data_append, List.getLast?_append_of_ne_nil _ hne, hd]
    have hends : strEndsWithChar (Ppm.serializeColors (Ppm.header cv) cv) '\n' = false := by
      unfold strEndsWithChar
      rw [hSdata_last]
      simp [hdne]
    refine ⟨(Ppm.serializeColors (Ppm.header cv) cv).data, ?_, ?_⟩
    · show (Ppm.endsWithNewLine (Ppm.serializeColors (Ppm.header cv) cv)).data = _
      simp only [Ppm.endsWithNewLine, hends, Bool.false_eq_true, if_false]
      rw [String.data_append]
    · rw [hSdata_last]
      intro hcontra
      exact hdne (Option.some.inj hcontra)

/-- The ULPs comparison at threshold 0 coincides with the primitive IEEE
f32 equality on every pair of 32-bit patterns. -/
theorem ulpsEqZero_eq_primEq (a b : ℕ) (ha : a < 2 ^ 32) (hb : b < 2 ^ 32) :
    ulpsEqZero a b = f32PrimEq a b := by
  have ha' : a < 4294967296 := by omega
  have hb' : b < 4294967296 := by omega
  unfold ulpsEqZero f32PrimEq f32SignBit f32IsNan f32Mag
  by_cases hna : 2139095040 < a % 2147483648 <;>
    by_cases hnb : 2139095040 < b % 2147483648 <;>
    by_cases hsa : 2147483648 ≤ a <;>
    by_cases hsb : 2147483648 ≤ b <;>
    by_cases heq : a = b <;>
    simp [hna, hnb, hsa, hsb, heq] <;>
    omega

/-- C9: equality of `Point`s (and likewise of `Vector`s) holds exactly when
the three corresponding components are equal under the primitive, exact
f32 `==` (NaN unequal to everything, `+0 == -0`), with no tolerance: the
`ulps <= 0` comparison of the `PartialEq` impls coincides with `==` on every
well-formed 32-bit pattern. -/
theorem pointVectorEq_exact (px py pz qx qy qz : ℕ)
    (h : px < 2 ^ 32 ∧ py < 2 ^ 32 ∧ pz < 2 ^ 32 ∧
      qx < 2 ^ 32 ∧ qy < 2 ^ 32 ∧ qz < 2 ^ 32) :
    (pointBitsEq px py pz qx qy qz = true ↔
      (f32PrimEq px qx = true ∧ f32PrimEq py qy = true ∧ f32PrimEq pz qz = true)) ∧
    vectorBitsEq px py pz qx qy qz = pointBitsEq px py pz qx qy qz := by
  obtain ⟨h1, h2, h3, h4, h5, h6⟩ := h
  refine ⟨?_, rfl⟩
  unfold pointBitsEq
  rw [ulpsEqZero_eq_primEq px qx h1 h4, ulpsEqZero_eq_primEq py qy h2 h5,
    ulpsEqZero_eq_primEq pz qz h3 h6]
  simp [Bool.and_eq_true, and_assoc]

/-- Witness for C9: the point with all-zero components (+0, +0, +0) equals
the point (-0, +0, +0), since `+0 == -0` holds under exact f32 equality. -/
theorem pointVectorEq_exact_witness :
    pointBitsEq 0 0 0 2147483648 0 0 = true ∧ f32PrimEq 0 2147483648 = true := by
  refine ⟨?_, by decide⟩
  exact (pointVectorEq_exact 0 0 0 2147483648 0 0 (by decide)).1.mpr
    ⟨by decide, by decide, by decide⟩

end RayTracer
